import Mathlib

/-!
Shallow embedding of the Monopoly Monte-Carlo simulation (monopoly.c and the
host/device code of C_parallelized_Code.c).  C `int` values are modelled as `ℤ`;
C `%` and `/` on `int` are `Int.tmod` and `Int.tdiv` (truncation toward zero,
as in C99); `rand()` draws are modelled as an explicit stream `List ℕ` consumed
in call order; C `double` rewards are integer-valued throughout the program and
are modelled as `ℤ`, except the stored Q-value `sum/count`, modelled as `ℚ`.
-/

namespace Monopoly

/-- Board/config constants fixed by `create_monopoly_env` (BOARD_SIZE, MAX_PLAYERS,
jail_position = 10, go_to_jail_position = 30, jail_turns = 3); the C code stores
them in the env but never changes them. -/
def boardSize : ℤ := 40

def maxPlayers : ℤ := 8

def jailPosition : ℤ := 10

def goToJailPosition : ℤ := 30

def jailTurns : ℤ := 3

/-- One board square's data: `Property` struct (price, rent, owner, houses,
house_cost); the name string is dropped. Owner `-1` means unowned/bank. -/
structure Property where
  price : ℤ
  rent : ℤ
  owner : ℤ
  houses : ℤ
  houseCost : ℤ
deriving DecidableEq

/-- The default square from `initialize_properties`: non-property squares. -/
def defaultSquare : Property := ⟨0, 0, -1, 0, 0⟩

/-- The prices of `initialize_properties` (0 on non-property squares). -/
def priceAt (i : ℤ) : ℤ :=
  if i = 1 then 60 else if i = 3 then 60
  else if i = 5 then 200 else if i = 6 then 100
  else if i = 8 then 100 else if i = 9 then 120
  else if i = 11 then 140 else if i = 12 then 150
  else if i = 13 then 140 else if i = 14 then 160
  else if i = 15 then 200 else if i = 16 then 180
  else if i = 18 then 180 else if i = 19 then 200
  else if i = 21 then 220 else if i = 23 then 220
  else if i = 24 then 240 else if i = 25 then 200
  else if i = 26 then 260 else if i = 27 then 260
  else if i = 28 then 150 else if i = 29 then 280
  else if i = 31 then 300 else if i = 32 then 300
  else if i = 34 then 320 else if i = 35 then 200
  else if i = 37 then 350 else if i = 39 then 400
  else 0

/-- The base rents of `initialize_properties`. -/
def rentAt (i : ℤ) : ℤ :=
  if i = 1 then 2 else if i = 3 then 4
  else if i = 5 then 25 else if i = 6 then 6
  else if i = 8 then 6 else if i = 9 then 8
  else if i = 11 then 10 else if i = 12 then 10
  else if i = 13 then 10 else if i = 14 then 12
  else if i = 15 then 25 else if i = 16 then 14
  else if i = 18 then 14 else if i = 19 then 16
  else if i = 21 then 18 else if i = 23 then 18
  else if i = 24 then 20 else if i = 25 then 25
  else if i = 26 then 22 else if i = 27 then 22
  else if i = 28 then 10 else if i = 29 then 24
  else if i = 31 then 26 else if i = 32 then 26
  else if i = 34 then 28 else if i = 35 then 25
  else if i = 37 then 35 else if i = 39 then 50
  else 0

/-- The house costs of `initialize_properties`. -/
def houseCostAt (i : ℤ) : ℤ :=
  if i = 1 then 50 else if i = 3 then 50
  else if i = 5 then 100 else if i = 6 then 50
  else if i = 8 then 50 else if i = 9 then 50
  else if i = 11 then 100 else if i = 12 then 75
  else if i = 13 then 100 else if i = 14 then 100
  else if i = 15 then 100 else if i = 16 then 100
  else if i = 18 then 100 else if i = 19 then 100
  else if i = 21 then 150 else if i = 23 then 150
  else if i = 24 then 150 else if i = 25 then 100
  else if i = 26 then 150 else if i = 27 then 150
  else if i = 28 then 75 else if i = 29 then 150
  else if i = 31 then 200 else if i = 32 then 200
  else if i = 34 then 200 else if i = 35 then 100
  else if i = 37 then 200 else if i = 39 then 200
  else 0

/-- The 40-square table from `initialize_properties`: the listed price, rent
and house cost per square, with owner -1 and 0 houses everywhere (squares not
listed keep the all-zero default). -/
def propertyAt (i : ℤ) : Property := ⟨priceAt i, rentAt i, -1, 0, houseCostAt i⟩

/-- `MonopolyEnv`: the mutable game state (player arrays are modelled as total
functions on player index; property array as a total function on square index). -/
structure MonopolyEnv where
  goReward : ℤ
  startMoney : ℤ
  numPlayers : ℤ
  positions : ℤ → ℤ
  money : ℤ → ℤ
  inJail : ℤ → Bool
  jailCounters : ℤ → ℤ
  properties : ℤ → Property
  currentPlayer : ℤ
  stepsTaken : ℤ
  done : Bool

/-- The state built by `create_monopoly_env` after its validation succeeded:
active players at position 0 with the starting cash, unused slots at -1 / 0. -/
def createEnvState (np sm gr : ℤ) : MonopolyEnv where
  goReward := gr
  startMoney := sm
  numPlayers := np
  positions := fun i => if 0 ≤ i ∧ i < np then 0 else -1
  money := fun i => if 0 ≤ i ∧ i < np then sm else 0
  inJail := fun _ => false
  jailCounters := fun _ => 0
  properties := propertyAt
  currentPlayer := 0
  stepsTaken := 0
  done := false

/-- `create_monopoly_env`: returns NULL (here `none`) iff
`num_players <= 0 || num_players > MAX_PLAYERS`; no other argument is checked. -/
def createMonopolyEnv (np sm gr : ℤ) : Option MonopolyEnv :=
  if np ≤ 0 ∨ np > maxPlayers then none else some (createEnvState np sm gr)

/-- `reset_monopoly_env`: clears ownership and houses on the board, restores the
players' starting position/cash/jail state, and resets the turn bookkeeping. -/
def resetEnv (e : MonopolyEnv) : MonopolyEnv :=
  { e with
    properties := fun i =>
      if 0 ≤ i ∧ i < boardSize then { e.properties i with owner := -1, houses := 0 }
      else e.properties i
    positions := fun i => if 0 ≤ i ∧ i < e.numPlayers then 0 else e.positions i
    money := fun i => if 0 ≤ i ∧ i < e.numPlayers then e.startMoney else e.money i
    inJail := fun i => if 0 ≤ i ∧ i < e.numPlayers then false else e.inJail i
    jailCounters := fun i => if 0 ≤ i ∧ i < e.numPlayers then 0 else e.jailCounters i
    currentPlayer := 0
    stepsTaken := 0
    done := false }

/-- `next_player`: advance `current_player` cyclically. -/
def nextPlayer (e : MonopolyEnv) : MonopolyEnv :=
  { e with currentPlayer := (e.currentPlayer + 1).tmod e.numPlayers }

/-- Point update of one player's cash. -/
def setMoney (e : MonopolyEnv) (p v : ℤ) : MonopolyEnv :=
  { e with money := fun i => if i = p then v else e.money i }

/-- Point update of one player's position. -/
def setPosition (e : MonopolyEnv) (p v : ℤ) : MonopolyEnv :=
  { e with positions := fun i => if i = p then v else e.positions i }

/-- Point update of one player's jail flag. -/
def setInJail (e : MonopolyEnv) (p : ℤ) (v : Bool) : MonopolyEnv :=
  { e with inJail := fun i => if i = p then v else e.inJail i }

/-- Point update of one player's jail turn counter. -/
def setJailCounter (e : MonopolyEnv) (p v : ℤ) : MonopolyEnv :=
  { e with jailCounters := fun i => if i = p then v else e.jailCounters i }

/-- Point update of one board square. -/
def setSquare (e : MonopolyEnv) (pos : ℤ) (v : Property) : MonopolyEnv :=
  { e with properties := fun i => if i = pos then v else e.properties i }

/-- Pop one `rand()` value from the modelled stream (`headD 0` on exhaustion). -/
def popRand (rng : List ℕ) : ℕ × List ℕ := (rng.headD 0, rng.tail)

/-- `(rand() % 6) + 1`. -/
def rollDie (r : ℕ) : ℤ := (r % 6 : ℕ) + 1

/-- `get_fee_for_position`: 200 on square 4 (Income Tax), 100 on 38 (Luxury Tax). -/
def feeForPosition (pos : ℤ) : ℤ :=
  if pos = 4 then 200 else if pos = 38 then 100 else 0

/-- `is_chance_position`. -/
def isChancePosition (pos : ℤ) : Bool := pos = 7 ∨ pos = 22 ∨ pos = 36

/-- `is_chest_position`. -/
def isChestPosition (pos : ℤ) : Bool := pos = 2 ∨ pos = 17 ∨ pos = 33

/-- The closed set of card effects: advance-to-go, send-to-jail, or a fixed
money adjustment (`adjust_money` with the card's amount). -/
inductive CardKind where
  | advanceGo : CardKind
  | goJail : CardKind
  | adjust : ℤ → CardKind
deriving DecidableEq

/-- The Chance deck from `initialize_decks`:
Advance to Go, Go to Jail, Bank pays you dividend (+50), Pay poor tax (-15). -/
def chanceDeck : List CardKind := [.advanceGo, .goJail, .adjust 50, .adjust (-15)]

/-- The Community Chest deck: Doctor's fee (-50), Income tax refund (+20),
Go to Jail, Advance to Go. -/
def chestDeck : List CardKind := [.adjust (-50), .adjust 20, .goJail, .advanceGo]

/-- Helper `advance_to_go`: move to square 0 and, when not already there,
collect the pass-GO credit; the returned reward is the credit collected. -/
def advanceGoEffect (e : MonopolyEnv) (p : ℤ) : MonopolyEnv × ℤ :=
  let passedGo := e.positions p ≠ 0
  let e1 := setPosition e p 0
  if passedGo then (setMoney e1 p (e1.money p + e.goReward), e.goReward) else (e1, 0)

/-- Helper `go_to_jail`: relocate to the jail square, set the jail flag, reset
the jail counter; reward 0. -/
def goJailEffect (e : MonopolyEnv) (p : ℤ) : MonopolyEnv :=
  setJailCounter (setInJail (setPosition e p jailPosition) p true) p 0

/-- Apply one drawn card's effect function; returns the new state and the
card's reward contribution (`CardEffectResult.reward`). -/
def applyCard (e : MonopolyEnv) (p : ℤ) : CardKind → MonopolyEnv × ℤ
  | .advanceGo => advanceGoEffect e p
  | .goJail => (goJailEffect e p, 0)
  | .adjust amt => (setMoney e p (e.money p + amt), amt)

/-- `RentCalculator`: base rent times 1/5/15/45/80/125 for 0-5 houses, with the
fallback `base * (houses + 1)` for any other positive count. -/
def rentCalculator (base houses : ℤ) : ℤ :=
  if houses > 0 then
    if houses = 1 then base * 5
    else if houses = 2 then base * 15
    else if houses = 3 then base * 45
    else if houses = 4 then base * 80
    else if houses = 5 then base * 125
    else base * (houses + 1)
  else base

/-- Money/ownership deltas produced by the square-resolution block, feeding the
step's `current_step_reward` (buy bonus), `card_reward_contribution`
(-tax, -rent) and `fee_paid_this_turn` (tax + rent) accumulators. -/
structure SquareOutcome where
  env : MonopolyEnv
  buyBonus : ℤ
  taxPaid : ℤ
  rentPaid : ℤ
  houseSpend : ℤ

/-- Square resolution of `step_monopoly_env` (post-card position `pos`):
Go-To-Jail square (with the duplicate-card guard), tax squares, property
squares (buy / rent with the house-count multipliers and pay-what-you-can
clamp / self-owned house purchase), all other squares untouched. -/
def resolveSquare (e : MonopolyEnv) (p pos action : ℤ)
    (cardDrawn cardWasGoJail : Bool) : SquareOutcome :=
  let prop := e.properties pos
  if pos = goToJailPosition then
    if ¬cardDrawn ∨ ¬cardWasGoJail then ⟨goJailEffect e p, 0, 0, 0, 0⟩
    else ⟨e, 0, 0, 0, 0⟩
  else if feeForPosition pos > 0 then
    let fee := feeForPosition pos
    ⟨setMoney e p (e.money p - fee), 0, fee, 0, 0⟩
  else if prop.price > 0 then
    if prop.owner = -1 then
      if e.money p ≥ prop.price then
        if action = 1 then
          let e1 := setMoney e p (e.money p - prop.price)
          let e2 := setSquare e1 pos { prop with owner := p, houses := 0 }
          ⟨e2, 100, 0, 0, 0⟩
        else ⟨e, 0, 0, 0, 0⟩
      else ⟨e, 0, 0, 0, 0⟩
    else if prop.owner ≠ p then
      let rentDue := rentCalculator prop.rent prop.houses
      let payment := if e.money p < rentDue then e.money p else rentDue
      let e1 := setMoney e p (e.money p - payment)
      let e2 :=
        if 0 ≤ prop.owner ∧ prop.owner < e.numPlayers then
          setMoney e1 prop.owner (e1.money prop.owner + payment)
        else e1
      ⟨e2, 0, 0, payment, 0⟩
    else
      let canBuyHouses := prop.houseCost > 0 ∧ e.money p ≥ prop.houseCost
      if canBuyHouses ∧ prop.houses < 5 then
        let affordableHouses := (e.money p).tdiv prop.houseCost
        let maxNewHouses := 5 - prop.houses
        let housesCanBuy :=
          if affordableHouses < maxNewHouses then affordableHouses else maxNewHouses
        if action = 1 ∧ housesCanBuy > 0 then
          let e1 := setSquare e pos { prop with houses := prop.houses + 1 }
          let e2 := setMoney e1 p (e.money p - prop.houseCost)
          ⟨e2, 0, 0, 0, prop.houseCost⟩
        else ⟨e, 0, 0, 0, 0⟩
      else ⟨e, 0, 0, 0, 0⟩
  else ⟨e, 0, 0, 0, 0⟩

/-- Bankruptcy phase 1 (`step_monopoly_env`): walk the board in ascending
square order; on each property of `p` with houses and a positive house cost,
sell every house at `house_cost / 2` and stop (resolved) as soon as cash is
non-negative. -/
def sellHousesLoop (e : MonopolyEnv) (p : ℤ) : List ℤ → MonopolyEnv × Bool
  | [] => (e, false)
  | i :: rest =>
    let prop := e.properties i
    if prop.owner = p ∧ prop.houses > 0 then
      if prop.houseCost > 0 then
        let moneyFromHouses := prop.houses * prop.houseCost.tdiv 2
        let e1 := setMoney e p (e.money p + moneyFromHouses)
        let e2 := setSquare e1 i { prop with houses := 0 }
        if e2.money p ≥ 0 then (e2, true) else sellHousesLoop e2 p rest
      else sellHousesLoop e p rest
    else sellHousesLoop e p rest

/-- Bankruptcy phase 2: walk the board in ascending square order; sell each
house-less property of `p` back to the bank at `price / 2` and stop (resolved)
as soon as cash is non-negative. -/
def sellPropsLoop (e : MonopolyEnv) (p : ℤ) : List ℤ → MonopolyEnv × Bool
  | [] => (e, false)
  | i :: rest =>
    let prop := e.properties i
    if prop.owner = p then
      if prop.houses = 0 ∧ prop.price > 0 then
        let sellPrice := prop.price.tdiv 2
        let e1 := setMoney e p (e.money p + sellPrice)
        let e2 := setSquare e1 i { prop with owner := -1 }
        if e2.money p ≥ 0 then (e2, true) else sellPropsLoop e2 p rest
      else sellPropsLoop e p rest
    else sellPropsLoop e p rest

/-- The board indices 0..39 the bankruptcy loops iterate over. -/
def boardIndices : List ℤ := (List.range 40).map Int.ofNat

/-- Terminal forfeiture: every board square owned by `p` loses its owner and
its houses. -/
def forfeitAll (e : MonopolyEnv) (p : ℤ) : MonopolyEnv :=
  { e with
    properties := fun i =>
      if 0 ≤ i ∧ i < boardSize ∧ (e.properties i).owner = p then
        { e.properties i with owner := -1, houses := 0 }
      else e.properties i }

/-- The full bankruptcy block of `step_monopoly_env` for a player with negative
cash: phase 1, phase 2 (only while still unresolved and negative), then the
final verdict that ends the game, forfeits everything and reports that the
-1000 penalty applies. Returns the new state and whether the penalty fired. -/
def bankruptcyCheck (e : MonopolyEnv) (p : ℤ) : MonopolyEnv × Bool :=
  let r1 := sellHousesLoop e p boardIndices
  let r2 :=
    if ¬r1.2 ∧ r1.1.money p < 0 then sellPropsLoop r1.1 p boardIndices else r1
  if ¬r2.2 ∧ r2.1.money p < 0 then ({ forfeitAll r2.1 p with done := true }, true)
  else (r2.1, false)

/-- Result of one `step_monopoly_env` call: the new state, the reward, the
terminal flag, the unconsumed random stream, the observable log fields, and an
itemised account of every term the step added to its two reward accumulators
(`current_step_reward` = goCredit + buyBonus; `card_reward_contribution` =
cardReward - jailFee - taxPaid - rentPaid - bankruptPenalty). -/
structure StepResult where
  env : MonopolyEnv
  reward : ℤ
  done : Bool
  rng : List ℕ
  posBefore : ℤ
  diceRoll : ℤ
  landedOn : ℤ
  posAfter : ℤ
  moneyBefore : ℤ
  moneyAfter : ℤ
  feePaid : ℤ
  goCredit : ℤ
  buyBonus : ℤ
  cardReward : ℤ
  jailFee : ℤ
  taxPaid : ℤ
  rentPaid : ℤ
  houseSpend : ℤ
  bankruptPenalty : ℤ

/-- The pass-GO check of the movement phase: credit the pass-GO amount once
iff the post-roll position is below the pre-roll position (and the jail flag,
already cleared at every call, is off) and the pre-roll position is not the
jail square.  Returns the new state and the credit booked. -/
def goPhase (e : MonopolyEnv) (p pv landed : ℤ) : MonopolyEnv × ℤ :=
  if (landed < pv ∧ e.inJail p = false) ∧ pv ≠ jailPosition then
    (setMoney e p (e.money p + e.goReward), e.goReward)
  else (e, 0)

/-- The card-draw block: on a Chance or Community Chest square, draw uniformly
with replacement and apply the effect.  Returns the new state, the card's
reward, the remaining stream, whether a card was drawn, and whether it was the
Go-to-Jail card. -/
def drawPhase (e : MonopolyEnv) (p landed : ℤ) (rng : List ℕ) :
    MonopolyEnv × ℤ × List ℕ × Bool × Bool :=
  if isChancePosition landed then
    let (rc, rng3) := popRand rng
    let card := chanceDeck.getD (rc % chanceDeck.length) .advanceGo
    let ec := applyCard e p card
    (ec.1, ec.2, rng3, true, decide (card = .goJail))
  else if isChestPosition landed then
    let (rc, rng3) := popRand rng
    let card := chestDeck.getD (rc % chestDeck.length) .advanceGo
    let ec := applyCard e p card
    (ec.1, ec.2, rng3, true, decide (card = .goJail))
  else (e, 0, rng, false, false)

/-- The bankruptcy guard run once per step after all money movement. -/
def bankPhase (e : MonopolyEnv) (p : ℤ) : MonopolyEnv × Bool :=
  if e.money p < 0 ∧ e.done = false then bankruptcyCheck e p else (e, false)

/-- The movement half of `step_monopoly_env` (reached when the player is not
blocked in jail): fresh dice roll, pass-GO check, tentative position update,
card draw on Chance/Chest, square resolution at the post-card position,
bankruptcy check, and turn finalisation.  `feePaid0 / cardContrib0 / jailFee`
carry what the jail branch already accumulated. -/
def movementPhase (e : MonopolyEnv) (action : ℤ) (rng : List ℕ)
    (p moneyBefore prevPos feePaid0 cardContrib0 jailFee : ℤ) : StepResult :=
  let (r1, rng1) := popRand rng
  let (r2, rng2) := popRand rng1
  let diceTotal := rollDie r1 + rollDie r2
  let landed := (prevPos + diceTotal).tmod boardSize
  let gp := goPhase e p prevPos landed
  let eM := setPosition gp.1 p landed
  let cp := drawPhase eM p landed rng2
  let sq := resolveSquare cp.1 p (cp.1.positions p) action cp.2.2.2.1 cp.2.2.2.2
  let bk := bankPhase sq.env p
  let eT := { bk.1 with stepsTaken := bk.1.stepsTaken + 1 }
  let pen : ℤ := if bk.2 then 1000 else 0
  let cardContrib := cardContrib0 + cp.2.1 - sq.taxPaid - sq.rentPaid - pen
  let reward := (gp.2 + sq.buyBonus) + cardContrib
  { env := if eT.done then eT else nextPlayer eT
    reward := reward
    done := eT.done
    rng := cp.2.2.1
    posBefore := prevPos
    diceRoll := diceTotal
    landedOn := landed
    posAfter := eT.positions p
    moneyBefore := moneyBefore
    moneyAfter := eT.money p
    feePaid := feePaid0 + sq.taxPaid + sq.rentPaid
    goCredit := gp.2
    buyBonus := sq.buyBonus
    cardReward := cp.2.1
    jailFee := jailFee
    taxPaid := sq.taxPaid
    rentPaid := sq.rentPaid
    houseSpend := sq.houseSpend
    bankruptPenalty := pen }

/-- `step_monopoly_env`: terminal no-op branch, jail logic (doubles release /
turn-limit forced release with the $50 fee / stay), then the movement half. -/
def step (env : MonopolyEnv) (action : ℤ) (rng : List ℕ) : StepResult :=
  if env.done then
    { env := env
      reward := 0
      done := env.done
      rng := rng
      posBefore := env.positions env.currentPlayer
      diceRoll := 0
      landedOn := env.positions env.currentPlayer
      posAfter := env.positions env.currentPlayer
      moneyBefore := env.money env.currentPlayer
      moneyAfter := env.money env.currentPlayer
      feePaid := 0
      goCredit := 0
      buyBonus := 0
      cardReward := 0
      jailFee := 0
      taxPaid := 0
      rentPaid := 0
      houseSpend := 0
      bankruptPenalty := 0 }
  else
    let p := env.currentPlayer
    let moneyBefore := env.money p
    let prevPos := env.positions p
    if env.inJail p then
      let eJ := setJailCounter env p (env.jailCounters p + 1)
      let (r1, rng1) := popRand rng
      let (r2, rng2) := popRand rng1
      if rollDie r1 = rollDie r2 then
        movementPhase (setJailCounter (setInJail eJ p false) p 0) action rng2 p
          moneyBefore prevPos 0 0 0
      else if eJ.jailCounters p ≥ jailTurns then
        let eR := setJailCounter (setInJail eJ p false) p 0
        movementPhase (setMoney eR p (eR.money p - 50)) action rng2 p
          moneyBefore prevPos 50 (-50) 50
      else
        let eS := { eJ with stepsTaken := eJ.stepsTaken + 1 }
        let c0 : ℤ := 0
        if eS.money p < 0 ∧ eS.done = false then
          let eB := { forfeitAll eS p with done := true }
          { env := nextPlayer eB
            reward := c0 + (c0 - 1000)
            done := true
            rng := rng2
            posBefore := prevPos
            diceRoll := 0
            landedOn := prevPos
            posAfter := eB.positions p
            moneyBefore := moneyBefore
            moneyAfter := eB.money p
            feePaid := 0
            goCredit := 0
            buyBonus := 0
            cardReward := 0
            jailFee := 0
            taxPaid := 0
            rentPaid := 0
            houseSpend := 0
            bankruptPenalty := 1000 }
        else
          { env := nextPlayer eS
            reward := c0
            done := eS.done
            rng := rng2
            posBefore := prevPos
            diceRoll := 0
            landedOn := prevPos
            posAfter := eS.positions p
            moneyBefore := moneyBefore
            moneyAfter := eS.money p
            feePaid := 0
            goCredit := 0
            buyBonus := 0
            cardReward := 0
            jailFee := 0
            taxPaid := 0
            rentPaid := 0
            houseSpend := 0
            bankruptPenalty := 0 }
    else
      movementPhase env action rng p moneyBefore prevPos 0 0 0

/-! ### Monte Carlo agent, value store and updater -/

/-- `RAND_MAX` of the host C library. -/
def randMax : ℚ := 2147483647

/-- `StateTuple`: the abstracted Q-table key. -/
structure StateTuple where
  position : ℤ
  moneyBin : ℤ
  currentPropOwner : ℤ
  inJail : ℤ
deriving DecidableEq

/-- `QValueData`: per-action return statistics; `q_value = sum_returns / count`
is a C double, modelled as `ℚ`. -/
structure QValueData where
  sumReturns : ℤ
  count : ℕ
  qValue : ℚ
deriving DecidableEq

/-- The Q-value store as a total map (the chained hash table of the C code is
a finite-map refinement of this; `get_or_create` lazily fills zeros, so the
zero record is the default). -/
def QTable : Type := StateTuple → ℤ → QValueData

/-- The table with every entry at its creation value (sum 0, count 0, q 0). -/
def emptyQ : QTable := fun _ _ => ⟨0, 0, 0⟩

/-- One `record` call of the updater on entry `(key, a)` with return `g`:
`sum_returns += g; count += 1; q_value = sum_returns / count`. -/
def recordReturn (q : QTable) (key : StateTuple) (a : ℤ) (g : ℤ) : QTable :=
  fun k b =>
    if k = key ∧ b = a then
      let old := q key a
      ⟨old.sumReturns + g, old.count + 1,
        ((old.sumReturns + g : ℤ) : ℚ) / ((old.count + 1 : ℕ) : ℚ)⟩
    else q k b

/-- The epsilon-greedy body of `select_action_mc` (the code after the
`is_buyable` gate): explore with probability epsilon, otherwise exploit the
higher Q-value, breaking near-ties (< 1e-9) with a coin flip. -/
def epsilonGreedyBranch (epsilon : ℚ) (q : QTable) (tuple : StateTuple)
    (rng : List ℕ) : ℤ :=
  let (u, rng1) := popRand rng
  if (u : ℚ) / randMax < epsilon then
    let (c, _) := popRand rng1
    ((c % 2 : ℕ) : ℤ)
  else
    let q0 := (q tuple 0).qValue
    let q1 := (q tuple 1).qValue
    if |q0 - q1| < (1 : ℚ) / 1000000000 then
      let (c, _) := popRand rng1
      ((c % 2 : ℕ) : ℤ)
    else if q1 > q0 then 1 else 0

/-- `select_action_mc`: if the square the acting player stands on is not a
priced, unowned, affordable square (or the player is in jail), return 0
without touching the random stream; otherwise run the epsilon-greedy body. -/
def selectActionMC (epsilon : ℚ) (q : QTable) (tuple : StateTuple)
    (env : MonopolyEnv) (rng : List ℕ) : ℤ :=
  let p := env.currentPlayer
  let pos := env.positions p
  let isBuyable :=
    env.inJail p = false ∧ 0 ≤ pos ∧ pos < boardSize ∧
      (env.properties pos).price > 0 ∧ (env.properties pos).owner = -1 ∧
      env.money p ≥ (env.properties pos).price
  if ¬isBuyable then 0
  else
    let (u, rng1) := popRand rng
    if (u : ℚ) / randMax < epsilon then
      let (c, _) := popRand rng1
      ((c % 2 : ℕ) : ℤ)
    else
      let q0 := (q tuple 0).qValue
      let q1 := (q tuple 1).qValue
      if |q0 - q1| < (1 : ℚ) / 1000000000 then
        let (c, _) := popRand rng1
        ((c % 2 : ℕ) : ℤ)
      else if q1 > q0 then 1 else 0

/-- One step of an episode history: the state tuple the decision was made in,
the action, and the immediate reward. -/
structure EpStep where
  state : StateTuple
  action : ℤ
  reward : ℤ
deriving DecidableEq

/-- The visited-set key of one history step. -/
def keyOf (s : EpStep) : StateTuple × ℤ := (s.state, s.action)

/-- The backward loop of `update_mc` over the reversed history: accumulate G,
skip pairs already in the per-episode visited set, record the first
occurrence. -/
def mcLoop (q : QTable) (visited : List (StateTuple × ℤ)) (G : ℤ) :
    List EpStep → QTable
  | [] => q
  | s :: rest =>
    let G' := G + s.reward
    if keyOf s ∈ visited then mcLoop q visited G' rest
    else mcLoop (recordReturn q s.state s.action G') (keyOf s :: visited) G' rest

/-- `update_mc`: first-visit Monte-Carlo update of the Q-table from one
episode history (the C loop walks indices count-1 down to 0, i.e. the
reversed history). -/
def updateMC (q : QTable) (hist : List EpStep) : QTable :=
  mcLoop q [] 0 hist.reverse

/-- The sequence of `record(key, action, G)` events `mcLoop` performs, in
order: the bookkeeping mirror of the loop. -/
def mcRecs (visited : List (StateTuple × ℤ)) (G : ℤ) :
    List EpStep → List ((StateTuple × ℤ) × ℤ)
  | [] => []
  | s :: rest =>
    let G' := G + s.reward
    if keyOf s ∈ visited then mcRecs visited G' rest
    else (keyOf s, G') :: mcRecs (keyOf s :: visited) G' rest

/-- Replay a list of record events into a table. -/
def applyRecs (q : QTable) (recs : List ((StateTuple × ℤ) × ℤ)) : QTable :=
  recs.foldl (fun t r => recordReturn t r.1.1 r.1.2 r.2) q

/-- A whole training run: fold `update_mc` over the episode histories,
starting from the freshly created (all-zero) table. -/
def trainQ (episodes : List (List EpStep)) : QTable :=
  episodes.foldl updateMC emptyQ

/-- All record events of a training run, in order. -/
def allRecs (episodes : List (List EpStep)) : List ((StateTuple × ℤ) × ℤ) :=
  episodes.flatMap (fun h => mcRecs [] 0 h.reverse)

/-! ### The data-parallel per-episode simulator (simulate_episodes_kernel) -/

/-- Per-worker environment state of the parallel kernel. -/
structure KEnvState where
  positions : ℤ → ℤ
  money : ℤ → ℤ
  inJail : ℤ → Bool
  jailCounters : ℤ → ℤ
  owners : ℤ → ℤ
  houses : ℤ → ℤ
  currentPlayer : ℤ
  stepsTaken : ℤ
  done : Bool

/-- One iteration of the episode loop of `simulate_episodes_kernel`: dice,
pass-GO, landing (buy with inline epsilon-greedy, or rent = the flat base rent
debited in full with no transfer to the owner), reward = cash delta, terminal
bankruptcy check, then the card effects, and the turn hand-over.  The kernel
has no jail logic and no house purchases; `curand` draws come from the same
modelled stream (`cuda_rand_float`'s unit-interval draw is modelled as the
popped value divided by RAND_MAX). -/
def kernelStepBody (numPlayers goReward : ℤ) (prices rents : ℤ → ℤ)
    (epsilon : ℚ) (s : KEnvState) (rng : List ℕ) : KEnvState × ℤ × List ℕ :=
  let p := s.currentPlayer
  let prevMoney := s.money p
  let prevPos := s.positions p
  let (r1, rng1) := popRand rng
  let (r2, rng2) := popRand rng1
  let diceTotal := rollDie r1 + rollDie r2
  let newPos := (prevPos + diceTotal).tmod boardSize
  let s1 :=
    if newPos < prevPos ∧ s.inJail p = false then
      { s with money := fun i => if i = p then s.money i + goReward else s.money i }
    else s
  let s2 := { s1 with positions := fun i => if i = p then newPos else s1.positions i }
  let propOwner := s2.owners newPos
  let propPrice := prices newPos
  let propRent := rents newPos
  let landing : KEnvState × ℤ × List ℕ :=
    if propPrice > 0 ∧ propOwner = -1 ∧ s2.money p ≥ propPrice then
      let (u, rngA) := popRand rng2
      let act : ℤ × List ℕ :=
        if (u : ℚ) / randMax < epsilon then
          let (c, rngB) := popRand rngA
          (((c % 2 : ℕ) : ℤ), rngB)
        else (1, rngA)
      if act.1 = 1 then
        ({ s2 with
            money := fun i => if i = p then s2.money i - propPrice else s2.money i
            owners := fun i => if i = newPos then p else s2.owners i },
          act.1, act.2)
      else (s2, act.1, act.2)
    else if propOwner ≠ -1 ∧ propOwner ≠ p then
      ({ s2 with
          money := fun i => if i = p then s2.money i - propRent else s2.money i },
        0, rng2)
    else (s2, 0, rng2)
  let s3 := landing.1
  let rng3 := landing.2.2
  let reward0 := s3.money p - prevMoney
  let bankrupt := s3.money p < 0
  let s4 := if bankrupt then { s3 with done := true } else s3
  let reward := if bankrupt then reward0 - 1000 else reward0
  let cardPhase : KEnvState × List ℕ :=
    if isChancePosition newPos then
      let (rc, rng4) := popRand rng3
      let idx := rc % 4
      if idx = 0 then
        ({ s4 with
            positions := fun i => if i = p then 0 else s4.positions i
            money := fun i => if i = p then s4.money i + goReward else s4.money i },
          rng4)
      else if idx = 1 then
        ({ s4 with
            positions := fun i => if i = p then jailPosition else s4.positions i
            inJail := fun i => if i = p then true else s4.inJail i
            jailCounters := fun i => if i = p then 0 else s4.jailCounters i },
          rng4)
      else if idx = 2 then
        ({ s4 with money := fun i => if i = p then s4.money i + 50 else s4.money i },
          rng4)
      else
        ({ s4 with money := fun i => if i = p then s4.money i - 15 else s4.money i },
          rng4)
    else if isChestPosition newPos then
      let (rc, rng4) := popRand rng3
      let idx := rc % 4
      if idx = 0 then
        ({ s4 with money := fun i => if i = p then s4.money i - 50 else s4.money i },
          rng4)
      else if idx = 1 then
        ({ s4 with money := fun i => if i = p then s4.money i + 20 else s4.money i },
          rng4)
      else if idx = 2 then
        ({ s4 with
            positions := fun i => if i = p then jailPosition else s4.positions i
            inJail := fun i => if i = p then true else s4.inJail i
            jailCounters := fun i => if i = p then 0 else s4.jailCounters i },
          rng4)
      else
        ({ s4 with
            positions := fun i => if i = p then 0 else s4.positions i
            money := fun i => if i = p then s4.money i + goReward else s4.money i },
          rng4)
    else (s4, rng3)
  let s5 := cardPhase.1
  let s6 :=
    { s5 with
      currentPlayer := (s5.currentPlayer + 1).tmod numPlayers
      stepsTaken := s5.stepsTaken + 1 }
  (s6, reward, cardPhase.2)

/-! ### Derived notions used by the claims -/

/-- The board-square invariant of the spec: every square's house count lies in
[0, 5] and is 0 whenever the square is unowned. -/
def HousesInv (e : MonopolyEnv) : Prop :=
  ∀ i : ℤ,
    0 ≤ (e.properties i).houses ∧ (e.properties i).houses ≤ 5 ∧
      ((e.properties i).owner = -1 → (e.properties i).houses = 0)

/-- States reachable from a freshly constructed environment, a reset, or any
sequence of `step` calls. -/
inductive Reachable : MonopolyEnv → Prop where
  | fresh (np sm gr : ℤ) (e : MonopolyEnv) :
      createMonopolyEnv np sm gr = some e → Reachable e
  | reset (e : MonopolyEnv) : Reachable e → Reachable (resetEnv e)
  | next (e : MonopolyEnv) (a : ℤ) (rng : List ℕ) :
      Reachable e → Reachable ((step e a rng).env)

/-- The returns recorded for entry `(k, a)` among a list of record events. -/
def gvals (recs : List ((StateTuple × ℤ) × ℤ)) (k : StateTuple) (a : ℤ) : List ℤ :=
  (recs.filter (fun r => r.1 = (k, a))).map Prod.snd

/-- Folding successive `record` calls into one Q-table entry. -/
def entryFold (d : QValueData) (gs : List ℤ) : QValueData :=
  gs.foldl
    (fun d g =>
      ⟨d.sumReturns + g, d.count + 1,
        ((d.sumReturns + g : ℤ) : ℚ) / ((d.count + 1 : ℕ) : ℚ)⟩)
    d

/-! ### Concrete states used as test inputs -/

/-- A fresh 2-player game with $1500 starting cash and a $200 pass-GO credit
(the parameters of both programs' main functions). -/
def envFresh : MonopolyEnv := createEnvState 2 1500 200

/-- A finished game. -/
def envDone : MonopolyEnv := { envFresh with done := true }

/-- Player 0 standing on Baltic Avenue (square 3) which they already own with
no houses: cash 1500 covers the $50 house cost and 0 houses < 5. -/
def envOwnSq : MonopolyEnv :=
  setPosition (setSquare envFresh 3 { propertyAt 3 with owner := 0 }) 0 3

/-- The state tuple of that situation (position 3, money bin 15, the square's
owner 0, not in jail). -/
def tupEx : StateTuple := ⟨3, 15, 0, 0⟩

/-- Player 0 in jail (square 10) with two jail turns already spent. -/
def envJail : MonopolyEnv :=
  setJailCounter (setInJail (setPosition envFresh 0 10) 0 true) 0 2

/-- Player 0 with cash already at -10 and no owned property. -/
def envNeg : MonopolyEnv := setMoney envFresh 0 (-10)

/-- Baltic Avenue carrying a hotel owned by player 1. -/
def envHotel : MonopolyEnv :=
  setSquare envFresh 3 { propertyAt 3 with owner := 1, houses := 5 }

/-- A fresh buy step: dice stream [0, 1] rolls (1, 2), landing player 0 on
Baltic Avenue (price 60) with action 1. -/
def buyRun : StepResult := step envFresh 1 [0, 1]

/-- Kernel worker state: player 0 with only $2, square 3 owned by player 1
(base rent 4), both players at GO. -/
def kEnvRent : KEnvState where
  positions := fun _ => 0
  money := fun i => if i = 0 then 2 else 300
  inJail := fun _ => false
  jailCounters := fun _ => 0
  owners := fun i => if i = 3 then 1 else -1
  houses := fun _ => 0
  currentPlayer := 0
  stepsTaken := 0
  done := false

/-- The kernel step on that state with dice (1, 2): player 0 lands on the
opponent-owned square 3. -/
def kRentRun : KEnvState × ℤ × List ℕ :=
  kernelStepBody 2 200 (fun i => (propertyAt i).price) (fun i => (propertyAt i).rent)
    0 kEnvRent [0, 1]

/-- A two-step episode visiting the same (state, action) pair twice. -/
def histEx : List EpStep := [⟨tupEx, 1, 5⟩, ⟨tupEx, 1, 3⟩]

/-! ### Claims -/

/-- The movement half books its reward from the two accumulators it mirrors
from the C code; whenever the jail branch handed over `cardContrib0 = -jailFee`
(as all three call sites do), the reward is exactly the itemised sum. -/
theorem movementPhase_reward_decomposition (e : MonopolyEnv) (a : ℤ) (rng : List ℕ)
    (p mb pv f0 c0 jf : ℤ) (h : c0 = -jf) :
    (movementPhase e a rng p mb pv f0 c0 jf).reward =
      (movementPhase e a rng p mb pv f0 c0 jf).goCredit +
        (movementPhase e a rng p mb pv f0 c0 jf).buyBonus +
        (movementPhase e a rng p mb pv f0 c0 jf).cardReward -
        (movementPhase e a rng p mb pv f0 c0 jf).jailFee -
        (movementPhase e a rng p mb pv f0 c0 jf).taxPaid -
        (movementPhase e a rng p mb pv f0 c0 jf).rentPaid -
        (movementPhase e a rng p mb pv f0 c0 jf).bankruptPenalty := by
  simp only [movementPhase, popRand]
  rw [h]
  ring

/-- Phase 1 of the bankruptcy resolver, entered with negative cash: it reports
resolved exactly when it leaves the cash non-negative, and it never touches
the terminal flag. -/
theorem sellHousesLoop_spec (l : List ℤ) :
    ∀ (e : MonopolyEnv) (p : ℤ), e.money p < 0 →
      ((sellHousesLoop e p l).2 = true → (sellHousesLoop e p l).1.money p ≥ 0) ∧
        ((sellHousesLoop e p l).2 = false → (sellHousesLoop e p l).1.money p < 0) ∧
        (sellHousesLoop e p l).1.done = e.done := by
  induction l with
  | nil =>
    intro e p h
    exact ⟨fun hf => by simp [sellHousesLoop] at hf, fun _ => h, rfl⟩
  | cons i rest ih =>
    intro e p h
    simp only [sellHousesLoop]
    split_ifs with h1 h2 h3
    · exact ⟨fun _ => h3, fun hf => by simp at hf, rfl⟩
    · exact ih _ p (not_le.1 h3)
    · exact ih e p h
    · exact ih e p h

/-- Phase 2 of the bankruptcy resolver, entered with negative cash: same
contract as phase 1. -/
theorem sellPropsLoop_spec (l : List ℤ) :
    ∀ (e : MonopolyEnv) (p : ℤ), e.money p < 0 →
      ((sellPropsLoop e p l).2 = true → (sellPropsLoop e p l).1.money p ≥ 0) ∧
        ((sellPropsLoop e p l).2 = false → (sellPropsLoop e p l).1.money p < 0) ∧
        (sellPropsLoop e p l).1.done = e.done := by
  induction l with
  | nil =>
    intro e p h
    exact ⟨fun hf => by simp [sellPropsLoop] at hf, fun _ => h, rfl⟩
  | cons i rest ih =>
    intro e p h
    simp only [sellPropsLoop]
    split_ifs with h1 h2 h3
    · exact ⟨fun _ => h3, fun hf => by simp at hf, rfl⟩
    · exact ih _ p (not_le.1 h3)
    · exact ih e p h
    · exact ih e p h

/-- After terminal forfeiture, no board square is owned by the (non-negative)
player index `p` any more. -/
theorem forfeitAll_not_owner (e : MonopolyEnv) (p i : ℤ) (hp : 0 ≤ p)
    (hi : 0 ≤ i ∧ i < boardSize) : ((forfeitAll e p).properties i).owner ≠ p := by
  simp only [forfeitAll]
  split_ifs with h
  · intro hc
    simp at hc
    omega
  · intro hc
    exact h ⟨hi.1, hi.2, hc⟩

/-- Every element of the iterated index list is a board square. -/
theorem mem_boardIndices_bounds (i : ℤ) (hi : i ∈ boardIndices) :
    0 ≤ i ∧ i < boardSize := by
  simp only [boardIndices, List.mem_map, List.mem_range] at hi
  obtain ⟨j, hj, rfl⟩ := hi
  simp only [Int.ofNat_eq_natCast, boardSize]
  omega

/-- Claim C4: for an acting player whose cash went negative, the full
bankruptcy block (houses at half house cost, then house-less properties at
half price, ascending, stopping on solvency) ends in exactly one of two ways:
cash is non-negative with the terminal flag untouched and no penalty, or the
penalty fires, the state is terminal, and the player owns no board square. -/
theorem bankruptcy_resolution_dichotomy (e : MonopolyEnv) (p : ℤ)
    (hp : 0 ≤ p) (hneg : e.money p < 0) (hdone : e.done = false) :
    ((bankruptcyCheck e p).2 = false ∧ (bankruptcyCheck e p).1.money p ≥ 0 ∧
        (bankruptcyCheck e p).1.done = false) ∨
      ((bankruptcyCheck e p).2 = true ∧ (bankruptcyCheck e p).1.done = true ∧
        ∀ i ∈ boardIndices, ((bankruptcyCheck e p).1.properties i).owner ≠ p) := by
  obtain ⟨hA, hB, hC⟩ := sellHousesLoop_spec boardIndices e p hneg
  by_cases h1 : (sellHousesLoop e p boardIndices).2 = true
  · left
    have hg1 : ¬(¬(sellHousesLoop e p boardIndices).2 = true ∧
        (sellHousesLoop e p boardIndices).1.money p < 0) := by simp [h1]
    simp only [bankruptcyCheck]
    rw [if_neg hg1, if_neg hg1]
    exact ⟨rfl, hA h1, by rw [hC, hdone]⟩
  · have h1' : (sellHousesLoop e p boardIndices).2 = false := by
      revert h1; cases (sellHousesLoop e p boardIndices).2 <;> simp
    have hm1 : (sellHousesLoop e p boardIndices).1.money p < 0 := hB h1'
    obtain ⟨hA2, hB2, hC2⟩ :=
      sellPropsLoop_spec boardIndices (sellHousesLoop e p boardIndices).1 p hm1
    have hg1 : ¬(sellHousesLoop e p boardIndices).2 = true ∧
        (sellHousesLoop e p boardIndices).1.money p < 0 := ⟨by simp [h1'], hm1⟩
    simp only [bankruptcyCheck]
    rw [if_pos hg1]
    by_cases h2 :
      (sellPropsLoop (sellHousesLoop e p boardIndices).1 p boardIndices).2 = true
    · left
      have hg2 : ¬(¬(sellPropsLoop (sellHousesLoop e p boardIndices).1 p
            boardIndices).2 = true ∧
          (sellPropsLoop (sellHousesLoop e p boardIndices).1 p
            boardIndices).1.money p < 0) := by simp [h2]
      rw [if_neg hg2]
      exact ⟨rfl, hA2 h2, by rw [hC2, hC, hdone]⟩
    · right
      have h2' :
          (sellPropsLoop (sellHousesLoop e p boardIndices).1 p boardIndices).2 =
            false := by
        revert h2
        cases (sellPropsLoop (sellHousesLoop e p boardIndices).1 p boardIndices).2 <;>
          simp
      have hm2 := hB2 h2'
      have hg2 : ¬(sellPropsLoop (sellHousesLoop e p boardIndices).1 p
            boardIndices).2 = true ∧
          (sellPropsLoop (sellHousesLoop e p boardIndices).1 p
            boardIndices).1.money p < 0 := ⟨by simp [h2'], hm2⟩
      rw [if_pos hg2]
      refine ⟨rfl, rfl, fun i hi => ?_⟩
      exact forfeitAll_not_owner _ p i hp (mem_boardIndices_bounds i hi)

/-- Witness for C4: player 0 at -10 with no owned property goes straight to
the terminal outcome. -/
theorem bankruptcy_resolution_dichotomy_witness :
    (0 : ℤ) ≤ 0 ∧ envNeg.money 0 < 0 ∧ envNeg.done = false ∧
      (((bankruptcyCheck envNeg 0).2 = false ∧
          (bankruptcyCheck envNeg 0).1.money 0 ≥ 0 ∧
          (bankruptcyCheck envNeg 0).1.done = false) ∨
        ((bankruptcyCheck envNeg 0).2 = true ∧
          (bankruptcyCheck envNeg 0).1.done = true ∧
          ∀ i ∈ boardIndices, ((bankruptcyCheck envNeg 0).1.properties i).owner ≠ 0)) :=
  ⟨by decide, by decide, rfl,
    bankruptcy_resolution_dichotomy envNeg 0 (by decide) (by decide) rfl⟩

/-- The backward update loop performs exactly the record events its
bookkeeping mirror `mcRecs` lists, in order. -/
theorem mcLoop_eq_applyRecs (l : List EpStep) :
    ∀ (q : QTable) (visited : List (StateTuple × ℤ)) (G : ℤ),
      mcLoop q visited G l = applyRecs q (mcRecs visited G l) := by
  induction l with
  | nil => intro q v G; rfl
  | cons s rest ih =>
    intro q v G
    simp only [mcLoop, mcRecs]
    split_ifs with h
    · exact ih q v (G + s.reward)
    · exact ih _ _ _

/-- The keys recorded by one backward scan are pairwise distinct and disjoint
from the incoming visited set. -/
theorem mcRecs_nodup_fresh (l : List EpStep) :
    ∀ (visited : List (StateTuple × ℤ)) (G : ℤ),
      ((mcRecs visited G l).map Prod.fst).Nodup ∧
        ∀ k ∈ (mcRecs visited G l).map Prod.fst, k ∉ visited := by
  induction l with
  | nil => intro v G; exact ⟨List.nodup_nil, by simp [mcRecs]⟩
  | cons s rest ih =>
    intro v G
    simp only [mcRecs]
    split_ifs with h
    · exact ih v (G + s.reward)
    · obtain ⟨hn, hf⟩ := ih (keyOf s :: v) (G + s.reward)
      constructor
      · simp only [List.map_cons]
        refine List.nodup_cons.2 ⟨fun hmem => ?_, hn⟩
        exact (hf _ hmem) (List.mem_cons_self _ _)
      · intro k hk
        simp only [List.map_cons, List.mem_cons] at hk
        rcases hk with rfl | hk
        · exact h
        · exact fun hkv => hf k hk (List.mem_cons_of_mem _ hkv)

/-- A list of pairs with pairwise-distinct first components holds at most one
entry for any given first component. -/
theorem nodup_fst_filter_len {α β : Type} [DecidableEq α] (l : List (α × β))
    (k : α) (h : (l.map Prod.fst).Nodup) :
    (l.filter (fun r => r.1 = k)).length ≤ 1 := by
  induction l with
  | nil => simp
  | cons x rest ih =>
    simp only [List.map_cons, List.nodup_cons] at h
    by_cases hx : x.1 = k
    · have hrest : rest.filter (fun r => r.1 = k) = [] := by
        rw [List.filter_eq_nil_iff]
        intro a ha
        simp only [decide_eq_true_eq]
        intro hak
        exact h.1 (hx ▸ hak ▸ List.mem_map_of_mem Prod.fst ha)
      simp [List.filter_cons, hx, hrest]
    · simp only [List.filter_cons, hx, decide_False, if_false]
      exact ih h.2

/-- During a backward scan, the pair of a step is recorded at its first
occurrence in scan order, with the G accumulated up to and including that
position (the sum of the scanned rewards). -/
theorem mcRecs_first_occurrence (l : List EpStep) :
    ∀ (visited : List (StateTuple × ℤ)) (G : ℤ) (k : StateTuple × ℤ),
      k ∉ visited → k ∈ l.map keyOf →
      (k, G + ((l.take (l.findIdx (fun s => keyOf s = k) + 1)).map EpStep.reward).sum)
        ∈ mcRecs visited G l := by
  induction l with
  | nil => intro v G k _ hk; simp at hk
  | cons s rest ih =>
    intro v G k hkv hk
    by_cases hks : keyOf s = k
    · have hidx : (s :: rest).findIdx (fun x => keyOf x = k) = 0 := by
        simp [List.findIdx_cons, hks]
      rw [hidx]
      simp only [List.take_succ_cons, List.take_zero, List.map_cons, List.map_nil,
        List.sum_cons, List.sum_nil]
      simp only [mcRecs]
      rw [if_neg (by rw [hks]; exact hkv)]
      have hel : (k, G + (s.reward + 0)) = (keyOf s, G + s.reward) := by
        rw [hks]; ring_nf
      rw [hel]
      exact List.mem_cons_self _ _
    · have hidx : (s :: rest).findIdx (fun x => keyOf x = k) =
          rest.findIdx (fun x => keyOf x = k) + 1 := by
        simp [List.findIdx_cons, hks]
      rw [hidx]
      have hk' : k ∈ rest.map keyOf := by
        simp only [List.map_cons, List.mem_cons] at hk
        rcases hk with rfl | hk
        · exact absurd rfl hks
        · exact hk
      simp only [List.take_succ_cons, List.map_cons, List.sum_cons]
      rw [← add_assoc]
      simp only [mcRecs]
      split_ifs with hv
      · exact ih v (G + s.reward) k hkv hk'
      · refine List.mem_cons_of_mem _ ?_
        exact ih (keyOf s :: v) (G + s.reward) k
          (by
            simp only [List.mem_cons, not_or]
            exact ⟨fun hc => hks hc.symm, hkv⟩)
          hk'

/-- Folding record events into one entry accumulates the sum and the count and
recomputes the mean. -/
theorem entryFold_stats (gs : List ℤ) :
    ∀ (s : ℤ) (c : ℕ) (qv : ℚ), gs ≠ [] →
      entryFold ⟨s, c, qv⟩ gs =
        ⟨s + gs.sum, c + gs.length,
          ((s + gs.sum : ℤ) : ℚ) / ((c + gs.length : ℕ) : ℚ)⟩ := by
  induction gs with
  | nil => intro s c qv h; exact absurd rfl h
  | cons g rest ih =>
    intro s c qv _
    by_cases hr : rest = []
    · subst hr
      simp [entryFold]
    · have step1 : entryFold ⟨s, c, qv⟩ (g :: rest) =
          entryFold ⟨s + g, c + 1,
            ((s + g : ℤ) : ℚ) / ((c + 1 : ℕ) : ℚ)⟩ rest := rfl
      rw [step1, ih (s + g) (c + 1) _ hr]
      have h1 : s + g + rest.sum = s + (g :: rest).sum := by
        simp [List.sum_cons]; ring
      have h2 : c + 1 + rest.length = c + (g :: rest).length := by
        simp [List.length_cons]; omega
      simp only [QValueData.mk.injEq]
      refine ⟨h1, h2, ?_⟩
      rw [h1, h2]

/-- Replaying record events touches exactly the recorded entries, folding each
entry's own returns in order. -/
theorem applyRecs_entry (recs : List ((StateTuple × ℤ) × ℤ)) :
    ∀ (q : QTable) (k : StateTuple) (a : ℤ),
      applyRecs q recs k a = entryFold (q k a) (gvals recs k a) := by
  induction recs with
  | nil => intro q k a; rfl
  | cons r rest ih =>
    intro q k a
    obtain ⟨⟨k1, a1⟩, g⟩ := r
    by_cases hk : k1 = k ∧ a1 = a
    · obtain ⟨h1, h2⟩ := hk
      subst h1
      subst h2
      show applyRecs (recordReturn q k1 a1 g) rest k1 a1 =
        entryFold (q k1 a1) (gvals (((k1, a1), g) :: rest) k1 a1)
      rw [ih]
      have hrec : recordReturn q k1 a1 g k1 a1 =
          ⟨(q k1 a1).sumReturns + g, (q k1 a1).count + 1,
            (((q k1 a1).sumReturns + g : ℤ) : ℚ) /
              (((q k1 a1).count + 1 : ℕ) : ℚ)⟩ := by
        simp [recordReturn]
      have hg : gvals (((k1, a1), g) :: rest) k1 a1 = g :: gvals rest k1 a1 := by
        simp [gvals, List.filter_cons]
      rw [hrec, hg]
      rfl
    · show applyRecs (recordReturn q k1 a1 g) rest k a =
        entryFold (q k a) (gvals (((k1, a1), g) :: rest) k a)
      rw [ih]
      have hq : recordReturn q k1 a1 g k a = q k a := by
        simp only [recordReturn]
        rw [if_neg]
        intro hc
        exact hk ⟨hc.1.symm, hc.2.symm⟩
      have hne : ((k1, a1) : StateTuple × ℤ) ≠ (k, a) := by
        intro hc
        rw [Prod.mk.injEq] at hc
        exact hk hc
      have hg : gvals (((k1, a1), g) :: rest) k a = gvals rest k a := by
        simp [gvals, List.filter_cons, hne]
      rw [hq, hg]

/-- A training run folds all episodes' record events into the fresh table. -/
theorem trainQ_eq_applyRecs (episodes : List (List EpStep)) :
    ∀ q : QTable, episodes.foldl updateMC q = applyRecs q (allRecs episodes) := by
  induction episodes with
  | nil => intro q; rfl
  | cons h rest ih =>
    intro q
    simp only [List.foldl_cons, allRecs, List.flatMap_cons]
    rw [show allRecs rest = rest.flatMap (fun h => mcRecs [] 0 h.reverse) from rfl] at ih
    rw [ih (updateMC q h), updateMC, mcLoop_eq_applyRecs]
    exact (List.foldl_append _ _ _ _).symm

/-- Claim C6: the backward scan accumulates the undiscounted return G, records
only the first backward occurrence of each (key, action) pair (with the G
accumulated there), performs at most one update per pair per episode, and the
resulting table entry always carries sum, count, and mean of every return ever
recorded for that pair. -/
theorem first_visit_update_contract :
    (∀ (hist : List EpStep) (pair : StateTuple × ℤ),
        ((mcRecs [] 0 hist.reverse).filter (fun r => r.1 = pair)).length ≤ 1) ∧
      (∀ (hist : List EpStep) (pair : StateTuple × ℤ),
          pair ∈ hist.reverse.map keyOf →
          (pair,
              ((hist.reverse.take
                (hist.reverse.findIdx (fun s => keyOf s = pair) + 1)).map
                EpStep.reward).sum)
            ∈ mcRecs [] 0 hist.reverse) ∧
      (∀ (q : QTable) (hist : List EpStep),
          updateMC q hist = applyRecs q (mcRecs [] 0 hist.reverse)) ∧
      (∀ (episodes : List (List EpStep)) (k : StateTuple) (a : ℤ),
          (trainQ episodes k a).sumReturns = (gvals (allRecs episodes) k a).sum ∧
            (trainQ episodes k a).count = (gvals (allRecs episodes) k a).length ∧
            (gvals (allRecs episodes) k a ≠ [] →
              (trainQ episodes k a).qValue =
                ((gvals (allRecs episodes) k a).sum : ℚ) /
                  ((gvals (allRecs episodes) k a).length : ℚ))) := by
  refine ⟨?_, ?_, ?_, ?_⟩
  · intro hist pair
    exact nodup_fst_filter_len _ pair (mcRecs_nodup_fresh hist.reverse [] 0).1
  · intro hist pair hmem
    have h := mcRecs_first_occurrence hist.reverse [] 0 pair (by simp) hmem
    simpa using h
  · intro q hist
    exact mcLoop_eq_applyRecs hist.reverse q [] 0
  · intro episodes k a
    have ht : trainQ episodes k a = entryFold (emptyQ k a) (gvals (allRecs episodes) k a) := by
      rw [trainQ, trainQ_eq_applyRecs, applyRecs_entry]
    by_cases hgs : gvals (allRecs episodes) k a = []
    · rw [ht, hgs]
      exact ⟨rfl, rfl, fun hc => absurd rfl hc⟩
    · rw [ht, show emptyQ k a = (⟨0, 0, 0⟩ : QValueData) from rfl,
        entryFold_stats _ 0 0 0 hgs]
      refine ⟨by simp, by simp, fun _ => ?_⟩
      simp

/-- Witness for C6: the two-step episode revisiting (tupEx, Buy) records only
the backward-first return 3, giving sum 3, count 1, mean 3. -/
theorem first_visit_update_contract_witness :
    ((tupEx, (1 : ℤ)), (3 : ℤ)) ∈ mcRecs [] 0 histEx.reverse ∧
      (trainQ [histEx] tupEx 1).count = 1 ∧
      (trainQ [histEx] tupEx 1).qValue = 3 := by
  refine ⟨?_, ?_, ?_⟩
  · have h := first_visit_update_contract.2.1 histEx (tupEx, 1) (by decide)
    have e1 :
        ((histEx.reverse.take
            (histEx.reverse.findIdx (fun s => keyOf s = (tupEx, 1)) + 1)).map
            EpStep.reward).sum = (3 : ℤ) := by decide
    rw [e1] at h
    exact h
  · have h := (first_visit_update_contract.2.2.2 [histEx] tupEx 1).2.1
    rw [h]
    decide
  · have h := (first_visit_update_contract.2.2.2 [histEx] tupEx 1).2.2
      (by decide)
    rw [h, show (gvals (allRecs [histEx]) tupEx 1).sum = (3 : ℤ) from by decide,
      show (gvals (allRecs [histEx]) tupEx 1).length = 1 from by decide]
    norm_num

/-- Writing one square whose new value satisfies the per-square condition
preserves the board invariant. -/
theorem housesInv_setSquare (e : MonopolyEnv) (pos : ℤ) (v : Property)
    (h : HousesInv e)
    (hv : 0 ≤ v.houses ∧ v.houses ≤ 5 ∧ (v.owner = -1 → v.houses = 0)) :
    HousesInv (setSquare e pos v) := by
  intro i
  simp only [setSquare]
  split_ifs with hi
  · exact hv
  · exact h i

/-- Card effects never touch the board squares. -/
theorem housesInv_applyCard (e : MonopolyEnv) (p : ℤ) (c : CardKind)
    (h : HousesInv e) : HousesInv (applyCard e p c).1 := by
  cases c with
  | advanceGo =>
    simp only [applyCard, advanceGoEffect]
    split_ifs <;> exact h
  | goJail => exact h
  | adjust amt => exact h

/-- Square resolution preserves the board invariant: a purchase writes 0
houses, rent moves only cash, and a house purchase happens only on an owned
square below the 5-house cap. -/
theorem housesInv_resolveSquare (e : MonopolyEnv) (p pos action : ℤ)
    (cd cj : Bool) (h : HousesInv e) :
    HousesInv (resolveSquare e p pos action cd cj).env := by
  simp only [resolveSquare]
  split_ifs <;>
    first
      | exact h
      | exact housesInv_setSquare _ _ _ h ⟨le_refl 0, by norm_num, fun _ => rfl⟩
      | exact housesInv_setSquare _ _ _ h (by
          refine ⟨?_, ?_, ?_⟩ <;> dsimp only <;> (have hb := (h pos).1; omega))

/-- Bankruptcy phase 1 preserves the board invariant (sales zero the houses). -/
theorem housesInv_sellHousesLoop (l : List ℤ) :
    ∀ (e : MonopolyEnv) (p : ℤ), HousesInv e →
      HousesInv (sellHousesLoop e p l).1 := by
  induction l with
  | nil => intro e p h; exact h
  | cons i rest ih =>
    intro e p h
    simp only [sellHousesLoop]
    split_ifs with h1 h2 h3
    · exact housesInv_setSquare _ _ _ h ⟨le_refl 0, by norm_num, fun _ => rfl⟩
    · exact ih _ p (housesInv_setSquare _ _ _ h ⟨le_refl 0, by norm_num, fun _ => rfl⟩)
    · exact ih e p h
    · exact ih e p h

/-- Bankruptcy phase 2 preserves the board invariant (only house-less squares
are forfeited). -/
theorem housesInv_sellPropsLoop (l : List ℤ) :
    ∀ (e : MonopolyEnv) (p : ℤ), HousesInv e →
      HousesInv (sellPropsLoop e p l).1 := by
  induction l with
  | nil => intro e p h; exact h
  | cons i rest ih =>
    intro e p h
    simp only [sellPropsLoop]
    split_ifs with h1 h2 h3
    · exact housesInv_setSquare _ _ _ h ⟨(h i).1, (h i).2.1, fun _ => h2.1⟩
    · exact ih _ p (housesInv_setSquare _ _ _ h ⟨(h i).1, (h i).2.1, fun _ => h2.1⟩)
    · exact ih e p h
    · exact ih e p h

/-- Terminal forfeiture preserves the board invariant. -/
theorem housesInv_forfeitAll (e : MonopolyEnv) (p : ℤ) (h : HousesInv e) :
    HousesInv (forfeitAll e p) := by
  intro i
  simp only [forfeitAll]
  split_ifs with hi
  · exact ⟨le_refl 0, by norm_num, fun _ => rfl⟩
  · exact h i

/-- The whole bankruptcy block preserves the board invariant. -/
theorem housesInv_bankruptcyCheck (e : MonopolyEnv) (p : ℤ) (h : HousesInv e) :
    HousesInv (bankruptcyCheck e p).1 := by
  simp only [bankruptcyCheck]
  split_ifs <;>
    first
      | exact housesInv_sellHousesLoop _ _ _ h
      | exact housesInv_sellPropsLoop _ _ _ (housesInv_sellHousesLoop _ _ _ h)
      | exact housesInv_forfeitAll _ _ (housesInv_sellHousesLoop _ _ _ h)
      | exact housesInv_forfeitAll _ _
          (housesInv_sellPropsLoop _ _ _ (housesInv_sellHousesLoop _ _ _ h))

/-- The pass-GO block only moves cash. -/
theorem housesInv_goPhase (e : MonopolyEnv) (p pv landed : ℤ)
    (h : HousesInv e) : HousesInv (goPhase e p pv landed).1 := by
  simp only [goPhase]
  split_ifs <;> exact h

/-- The card-draw block preserves the board invariant. -/
theorem housesInv_drawPhase (e : MonopolyEnv) (p landed : ℤ) (rng : List ℕ)
    (h : HousesInv e) : HousesInv (drawPhase e p landed rng).1 := by
  simp only [drawPhase, popRand]
  split_ifs <;>
    first
      | exact h
      | exact housesInv_applyCard _ _ _ h

/-- The bankruptcy guard preserves the board invariant. -/
theorem housesInv_bankPhase (e : MonopolyEnv) (p : ℤ) (h : HousesInv e) :
    HousesInv (bankPhase e p).1 := by
  simp only [bankPhase]
  split_ifs <;>
    first
      | exact h
      | exact housesInv_bankruptcyCheck _ _ h

/-- The movement half preserves the board invariant. -/
theorem housesInv_movementPhase (e : MonopolyEnv) (a : ℤ) (rng : List ℕ)
    (p mb pv f0 c0 jf : ℤ) (h : HousesInv e) :
    HousesInv (movementPhase e a rng p mb pv f0 c0 jf).env := by
  simp only [movementPhase, popRand]
  split_ifs <;>
    exact housesInv_bankPhase _ _
      (housesInv_resolveSquare _ _ _ _ _ _
        (housesInv_drawPhase _ _ _ _ (housesInv_goPhase _ _ _ _ h)))

/-- One step preserves the board invariant. -/
theorem housesInv_step (e : MonopolyEnv) (a : ℤ) (rng : List ℕ)
    (h : HousesInv e) : HousesInv (step e a rng).env := by
  by_cases hd : e.done = true
  · simp only [step, hd, if_true]
    exact h
  · have hd' : e.done = false := by revert hd; cases e.done <;> simp
    simp only [step, hd', popRand, Bool.false_eq_true, if_false]
    split_ifs with hj hdb hlim hneg
    · exact housesInv_movementPhase _ _ _ _ _ _ _ _ _ h
    · exact housesInv_movementPhase _ _ _ _ _ _ _ _ _ h
    · exact housesInv_forfeitAll _ _ h
    · exact h
    · exact housesInv_movementPhase _ _ _ _ _ _ _ _ _ h

/-- The board table written at construction satisfies the invariant. -/
theorem housesInv_createEnvState (np sm gr : ℤ) :
    HousesInv (createEnvState np sm gr) := by
  intro i
  exact ⟨le_refl 0, by show (0 : ℤ) ≤ 5; norm_num, fun _ => rfl⟩

/-- Reset restores cleared ownership and zero houses on the whole board. -/
theorem housesInv_resetEnv (e : MonopolyEnv) (h : HousesInv e) :
    HousesInv (resetEnv e) := by
  intro i
  simp only [resetEnv]
  split_ifs with hi
  · exact ⟨le_refl 0, by norm_num, fun _ => rfl⟩
  · exact h i

/-- Claim C5: in every state reachable from a fresh or reset environment by
any sequence of steps, each board square's house count lies in [0, 5], and is
0 whenever the square is unowned. -/
theorem reachable_houses_invariant (e : MonopolyEnv) (h : Reachable e) :
    HousesInv e := by
  induction h with
  | fresh np sm gr e hc =>
    unfold createMonopolyEnv at hc
    by_cases hcond : np ≤ 0 ∨ np > maxPlayers
    · rw [if_pos hcond] at hc
      exact absurd hc (by simp)
    · rw [if_neg hcond] at hc
      injection hc with hc'
      rw [← hc']
      exact housesInv_createEnvState np sm gr
  | reset e' hr ih => exact housesInv_resetEnv e' ih
  | next e' a rng hr ih => exact housesInv_step e' a rng ih

/-- Witness for C5: the freshly constructed 2-player game. -/
theorem reachable_houses_invariant_witness :
    Reachable envFresh ∧ HousesInv envFresh :=
  ⟨Reachable.fresh 2 1500 200 envFresh rfl,
    reachable_houses_invariant envFresh (Reachable.fresh 2 1500 200 envFresh rfl)⟩

/-- Counterexample to C1 as stated: a fresh step buying Baltic Avenue has zero
movement/card/tax/rent/house-purchase money deltas (so the claimed reward is
0), yet the returned reward is the +100 purchase bonus while the player's cash
moved by -60 (the purchase price, absent from the reward). -/
theorem buy_reward_is_bonus_not_delta :
    buyRun.goCredit = 0 ∧ buyRun.cardReward = 0 ∧ buyRun.taxPaid = 0 ∧
      buyRun.rentPaid = 0 ∧ buyRun.houseSpend = 0 ∧ buyRun.jailFee = 0 ∧
      buyRun.bankruptPenalty = 0 ∧ buyRun.reward = 100 ∧
      buyRun.moneyAfter - buyRun.moneyBefore = -60 := by
  refine ⟨by decide, by decide, by decide, by decide, by decide, by decide,
    by decide, by decide, by decide⟩

/-- Claim C1 (amended): the reward of every step equals pass-GO credit plus
card-effect deltas plus a fixed +100 bonus when a property is bought, minus
jail fee, taxes, rent paid and the 1000 bankruptcy penalty when triggered; the
property purchase price, house purchases and liquidation proceeds change only
cash, never the reward. -/
theorem step_reward_decomposition (env : MonopolyEnv) (action : ℤ) (rng : List ℕ) :
    (step env action rng).reward =
      (step env action rng).goCredit + (step env action rng).buyBonus +
        (step env action rng).cardReward - (step env action rng).jailFee -
        (step env action rng).taxPaid - (step env action rng).rentPaid -
        (step env action rng).bankruptPenalty := by
  by_cases hd : env.done = true
  · simp [step, hd]
  · have hd' : env.done = false := by revert hd; cases env.done <;> simp
    simp only [step, hd', popRand, Bool.false_eq_true, if_false]
    split_ifs with hj hdb hlim hneg
    · exact movementPhase_reward_decomposition _ _ _ _ _ _ _ _ _ (by norm_num)
    · exact movementPhase_reward_decomposition _ _ _ _ _ _ _ _ _ (by norm_num)
    · norm_num
    · norm_num
    · exact movementPhase_reward_decomposition _ _ _ _ _ _ _ _ _ (by norm_num)

/-- Claim C7 (amended): at the jail turn limit with a non-double roll, the
player is released, exactly $50 is debited, and movement still happens the
same turn — but with a freshly drawn dice pair; the non-double pair rolled in
jail is discarded. -/
theorem jail_limit_release_fee_fresh_dice (env : MonopolyEnv) (action : ℤ)
    (rng : List ℕ) (hdone : env.done = false)
    (hjail : env.inJail env.currentPlayer = true)
    (hlimit : env.jailCounters env.currentPlayer + 1 ≥ jailTurns)
    (hnodbl : rollDie (rng.headD 0) ≠ rollDie (rng.tail.headD 0)) :
    step env action rng =
        movementPhase
          (setMoney
            (setJailCounter
              (setInJail
                (setJailCounter env env.currentPlayer
                  (env.jailCounters env.currentPlayer + 1))
                env.currentPlayer false)
              env.currentPlayer 0)
            env.currentPlayer (env.money env.currentPlayer - 50))
          action rng.tail.tail env.currentPlayer (env.money env.currentPlayer)
          (env.positions env.currentPlayer) 50 (-50) 50 ∧
      (setJailCounter
          (setInJail
            (setJailCounter env env.currentPlayer
              (env.jailCounters env.currentPlayer + 1))
            env.currentPlayer false)
          env.currentPlayer 0).inJail env.currentPlayer = false ∧
      (step env action rng).jailFee = 50 ∧
      (step env action rng).diceRoll =
        rollDie (rng.tail.tail.headD 0) + rollDie (rng.tail.tail.tail.headD 0) := by
  have hstep : step env action rng =
      movementPhase
        (setMoney
          (setJailCounter
            (setInJail
              (setJailCounter env env.currentPlayer
                (env.jailCounters env.currentPlayer + 1))
              env.currentPlayer false)
            env.currentPlayer 0)
          env.currentPlayer (env.money env.currentPlayer - 50))
        action rng.tail.tail env.currentPlayer (env.money env.currentPlayer)
        (env.positions env.currentPlayer) 50 (-50) 50 := by
    unfold step
    rw [if_neg (by simp [hdone]), if_pos hjail]
    simp only [popRand]
    rw [if_neg hnodbl]
    rw [if_pos (by simpa [setJailCounter] using hlimit)]
    simp [setJailCounter, setInJail, setMoney]
  refine ⟨hstep, by simp [setJailCounter, setInJail], ?_, ?_⟩
  · rw [hstep]
    simp only [movementPhase, popRand]
  · rw [hstep]
    simp only [movementPhase, popRand]

/-- Witness for C7 (amended): the concrete jailed state at the turn limit with
jail roll (1, 2) and movement roll (3, 3). -/
theorem jail_limit_release_fee_fresh_dice_witness :
    envJail.done = false ∧ envJail.inJail envJail.currentPlayer = true ∧
      envJail.jailCounters envJail.currentPlayer + 1 ≥ jailTurns ∧
      ((step envJail 0 [0, 1, 2, 2]).jailFee = 50 ∧
        (step envJail 0 [0, 1, 2, 2]).diceRoll = rollDie 2 + rollDie 2) := by
  refine ⟨rfl, by decide, by decide, ?_⟩
  have h := jail_limit_release_fee_fresh_dice envJail 0 [0, 1, 2, 2] rfl
    (by decide) (by decide) (by decide)
  exact ⟨h.2.2.1, h.2.2.2⟩

/-- Claim C10: calling `step` on a state whose terminal flag is set leaves the
environment completely unchanged, consumes no random value, and returns
reward 0 with the terminal flag still set. -/
theorem step_on_done_is_noop (env : MonopolyEnv) (action : ℤ) (rng : List ℕ)
    (h : env.done = true) :
    (step env action rng).env = env ∧ (step env action rng).reward = 0 ∧
      (step env action rng).done = true ∧ (step env action rng).rng = rng := by
  simp [step, h]

/-- Witness for C10: a concrete finished game. -/
theorem step_on_done_is_noop_witness :
    envDone.done = true ∧
      (step envDone 1 [5, 5]).env = envDone ∧ (step envDone 1 [5, 5]).reward = 0 ∧
      (step envDone 1 [5, 5]).done = true ∧ (step envDone 1 [5, 5]).rng = [5, 5] :=
  ⟨rfl, step_on_done_is_noop envDone 1 [5, 5] rfl⟩

/-- Counterexample to C9 as stated: `create_monopoly_env` accepts the
non-positive starting cash -5 and returns an environment. -/
theorem create_accepts_nonpositive_cash :
    (createMonopolyEnv 2 (-5) 200).isSome = true ∧ (-5 : ℤ) ≤ 0 := by
  constructor
  · rfl
  · decide

/-- Claim C9 (amended): construction fails exactly for an invalid player count
(non-positive or above 8); the starting cash is accepted unchecked and stored
unclamped, whatever its sign. -/
theorem create_validates_only_player_count (np sm gr : ℤ) :
    (createMonopolyEnv np sm gr = none ↔ np ≤ 0 ∨ np > maxPlayers) ∧
      (0 < np → np ≤ maxPlayers →
        createMonopolyEnv np sm gr = some (createEnvState np sm gr) ∧
          (createEnvState np sm gr).money 0 = sm ∧
          (createEnvState np sm gr).startMoney = sm) := by
  constructor
  · unfold createMonopolyEnv
    split_ifs with h
    · simp [h]
    · simp [h]
  · intro h1 h2
    refine ⟨?_, ?_, rfl⟩
    · unfold createMonopolyEnv
      rw [if_neg]
      push_neg
      exact ⟨h1, h2⟩
    · simp [createEnvState, h1]

/-- Witness for C9 (amended): the environment built with starting cash -5. -/
theorem create_validates_only_player_count_witness :
    createMonopolyEnv 2 (-5) 200 = some (createEnvState 2 (-5) 200) ∧
      (createEnvState 2 (-5) 200).money 0 = -5 :=
  ⟨((create_validates_only_player_count 2 (-5) 200).2 (by decide) (by decide)).1,
    ((create_validates_only_player_count 2 (-5) 200).2 (by decide) (by decide)).2.1⟩

/-- Counterexample to C2 as stated: player 0 stands on their own property
(square 3, 0 houses < 5, cash 1500 covers the $50 house cost) — a real
improvement decision per the claim — yet `select_action_mc` returns Pass
deterministically while the epsilon-greedy body (epsilon = 1, exploring coin
1) would return Buy. -/
theorem select_action_skips_own_property :
    selectActionMC 1 emptyQ tupEx envOwnSq [0, 1] = 0 ∧
      epsilonGreedyBranch 1 emptyQ tupEx [0, 1] = 1 ∧
      (envOwnSq.properties (envOwnSq.positions envOwnSq.currentPlayer)).owner =
        envOwnSq.currentPlayer ∧
      (envOwnSq.properties (envOwnSq.positions envOwnSq.currentPlayer)).houses < 5 ∧
      envOwnSq.money envOwnSq.currentPlayer ≥
        (envOwnSq.properties (envOwnSq.positions envOwnSq.currentPlayer)).houseCost := by
  refine ⟨rfl, ?_, by decide, by decide, by decide⟩
  have h : ((0 : ℕ) : ℚ) / randMax < 1 := by norm_num [randMax]
  simp [epsilonGreedyBranch, popRand, h]

/-- Claim C2 (amended): the epsilon-greedy body runs exactly when the occupied
square is a priced, unowned square the acting player can afford and the player
is not in jail; in every other case — including standing on one's own property
with house capacity and funds — Pass (0) is returned deterministically. -/
theorem select_action_characterisation (epsilon : ℚ) (q : QTable)
    (tuple : StateTuple) (env : MonopolyEnv) (rng : List ℕ) :
    selectActionMC epsilon q tuple env rng =
      if env.inJail env.currentPlayer = false ∧
          0 ≤ env.positions env.currentPlayer ∧
          env.positions env.currentPlayer < boardSize ∧
          (env.properties (env.positions env.currentPlayer)).price > 0 ∧
          (env.properties (env.positions env.currentPlayer)).owner = -1 ∧
          env.money env.currentPlayer ≥
            (env.properties (env.positions env.currentPlayer)).price then
        epsilonGreedyBranch epsilon q tuple rng
      else 0 := by
  unfold selectActionMC epsilonGreedyBranch
  split_ifs with h1 <;> simp_all

/-- Counterexample to C7 as stated: in-jail player 0 at the 3-turn limit rolls
the non-double pair (1, 2); the claim predicts movement by that pair to square
13, but the code rolls a fresh pair (3, 3) and lands on square 16. -/
theorem jail_limit_rerolls_dice :
    (step envJail 0 [0, 1, 2, 2]).env.positions 0 = 16 ∧
      rollDie 0 ≠ rollDie 1 ∧
      ((10 : ℤ) + (rollDie 0 + rollDie 1)).tmod boardSize = 13 ∧
      (16 : ℤ) ≠ 13 ∧
      (step envJail 0 [0, 1, 2, 2]).jailFee = 50 := by
  refine ⟨by decide, by decide, by decide, by decide, by decide⟩

/-- Claim C3 (amended, sequential part): when square resolution reaches a
square owned by another (valid) player, the rent due follows the
1/5/15/45/80/125 house multipliers, the amount paid is
min(pre-payment cash, rent due) — never more than the payer's cash — and
exactly that amount moves from the payer to the owner. -/
theorem sequential_rent_tiers_clamp_transfer (e : MonopolyEnv) (p pos action : ℤ)
    (cd cj : Bool) (hpos : pos ≠ goToJailPosition) (hfee : feeForPosition pos = 0)
    (hprice : (e.properties pos).price > 0)
    (howner : (e.properties pos).owner = -1 → False)
    (hne : (e.properties pos).owner ≠ p)
    (hvalid : 0 ≤ (e.properties pos).owner ∧ (e.properties pos).owner < e.numPlayers) :
    (resolveSquare e p pos action cd cj).rentPaid =
        min (e.money p)
          (rentCalculator (e.properties pos).rent (e.properties pos).houses) ∧
      (resolveSquare e p pos action cd cj).env.money p =
        e.money p -
          min (e.money p)
            (rentCalculator (e.properties pos).rent (e.properties pos).houses) ∧
      (resolveSquare e p pos action cd cj).env.money (e.properties pos).owner =
        e.money (e.properties pos).owner +
          min (e.money p)
            (rentCalculator (e.properties pos).rent (e.properties pos).houses) ∧
      min (e.money p) (rentCalculator (e.properties pos).rent (e.properties pos).houses)
          ≤ e.money p ∧
      (∀ b : ℤ, rentCalculator b 0 = b ∧ rentCalculator b 1 = b * 5 ∧
        rentCalculator b 2 = b * 15 ∧ rentCalculator b 3 = b * 45 ∧
        rentCalculator b 4 = b * 80 ∧ rentCalculator b 5 = b * 125) := by
  have hmin :
      (if e.money p < rentCalculator (e.properties pos).rent (e.properties pos).houses
        then e.money p
        else rentCalculator (e.properties pos).rent (e.properties pos).houses) =
        min (e.money p)
          (rentCalculator (e.properties pos).rent (e.properties pos).houses) := by
    split_ifs with h
    · exact (min_eq_left h.le).symm
    · exact (min_eq_right (not_lt.1 h)).symm
  simp only [resolveSquare]
  rw [if_neg hpos, if_neg (by rw [hfee]; norm_num), if_pos hprice, if_neg howner,
    if_pos hne, if_pos hvalid]
  have hne' : p ≠ (e.properties pos).owner := fun h => hne h.symm
  refine ⟨hmin, ?_, ?_, min_le_left _ _, ?_⟩
  · simp only [setMoney]
    simp [hmin, hne']
  · simp only [setMoney]
    simp [hne, hmin]
  · intro b
    refine ⟨rfl, ?_, ?_, ?_, ?_, ?_⟩ <;> simp [rentCalculator]

/-- Witness for C3 (amended): player 0 with $1500 pays hotel rent 4 x 125 =
500 on Baltic Avenue to player 1. -/
theorem sequential_rent_tiers_clamp_transfer_witness :
    (3 : ℤ) ≠ goToJailPosition ∧ feeForPosition 3 = 0 ∧
      (envHotel.properties 3).price > 0 ∧ (envHotel.properties 3).owner ≠ 0 ∧
      (resolveSquare envHotel 0 3 0 false false).rentPaid =
        min (envHotel.money 0)
          (rentCalculator (envHotel.properties 3).rent (envHotel.properties 3).houses) ∧
      (resolveSquare envHotel 0 3 0 false false).env.money 0 = 1000 ∧
      (resolveSquare envHotel 0 3 0 false false).env.money 1 = 2000 := by
  refine ⟨by decide, by decide, by decide, by decide, ?_, by decide, by decide⟩
  exact (sequential_rent_tiers_clamp_transfer envHotel 0 3 0 false false (by decide)
    (by decide) (by decide) (by decide) (by decide) (by decide)).1

/-- The movement half books the pass-GO credit exactly when the post-roll
position is below the pre-roll position and the pre-roll position is not the
jail square (given the caller's jail flag is already cleared, as at every call
site). -/
theorem movementPhase_goCredit (e : MonopolyEnv) (a : ℤ) (rng : List ℕ)
    (p mb pv f0 c0 jf : ℤ) (h : e.inJail p = false) :
    (movementPhase e a rng p mb pv f0 c0 jf).posBefore = pv ∧
      (movementPhase e a rng p mb pv f0 c0 jf).goCredit =
        if (movementPhase e a rng p mb pv f0 c0 jf).landedOn < pv ∧ pv ≠ jailPosition
        then e.goReward else 0 := by
  constructor
  · simp only [movementPhase, popRand]
  · simp only [movementPhase, popRand, goPhase]
    simp only [h, eq_self_iff_true, and_true]
    split_ifs with h1 <;> rfl

/-- Claim C8: in every step that reaches the movement phase (equivalently,
whose logged dice total is non-zero), the pass-GO credit is booked exactly
when the post-roll position is strictly below the pre-roll position and the
pre-roll position was not the jail square. -/
theorem pass_go_credit_iff_wrap_outside_jail (env : MonopolyEnv) (a : ℤ)
    (rng : List ℕ) (hdone : env.done = false)
    (hdice : (step env a rng).diceRoll ≠ 0) :
    (step env a rng).goCredit =
      if (step env a rng).landedOn < (step env a rng).posBefore ∧
          (step env a rng).posBefore ≠ jailPosition
      then env.goReward else 0 := by
  by_cases hj : env.inJail env.currentPlayer = true
  · by_cases hdb : rollDie (rng.headD 0) = rollDie (rng.tail.headD 0)
    · have hstep : step env a rng =
          movementPhase
            (setJailCounter
              (setInJail
                (setJailCounter env env.currentPlayer
                  (env.jailCounters env.currentPlayer + 1))
                env.currentPlayer false)
              env.currentPlayer 0)
            a rng.tail.tail env.currentPlayer (env.money env.currentPlayer)
            (env.positions env.currentPlayer) 0 0 0 := by
        unfold step
        rw [if_neg (by simp [hdone]), if_pos hj]
        simp only [popRand]
        rw [if_pos hdb]
      rw [hstep]
      obtain ⟨h1, h2⟩ := movementPhase_goCredit
        (setJailCounter
          (setInJail
            (setJailCounter env env.currentPlayer
              (env.jailCounters env.currentPlayer + 1))
            env.currentPlayer false)
          env.currentPlayer 0)
        a rng.tail.tail env.currentPlayer (env.money env.currentPlayer)
        (env.positions env.currentPlayer) 0 0 0
        (by simp [setJailCounter, setInJail])
      rw [h1, h2]
      rfl
    · by_cases hlim :
        env.jailCounters env.currentPlayer + 1 ≥ jailTurns
      · have hstep : step env a rng =
            movementPhase
              (setMoney
                (setJailCounter
                  (setInJail
                    (setJailCounter env env.currentPlayer
                      (env.jailCounters env.currentPlayer + 1))
                    env.currentPlayer false)
                  env.currentPlayer 0)
                env.currentPlayer (env.money env.currentPlayer - 50))
              a rng.tail.tail env.currentPlayer (env.money env.currentPlayer)
              (env.positions env.currentPlayer) 50 (-50) 50 := by
          unfold step
          rw [if_neg (by simp [hdone]), if_pos hj]
          simp only [popRand]
          rw [if_neg hdb]
          rw [if_pos (by simpa [setJailCounter] using hlim)]
          simp [setJailCounter, setInJail, setMoney]
        rw [hstep]
        obtain ⟨h1, h2⟩ := movementPhase_goCredit
          (setMoney
            (setJailCounter
              (setInJail
                (setJailCounter env env.currentPlayer
                  (env.jailCounters env.currentPlayer + 1))
                env.currentPlayer false)
              env.currentPlayer 0)
            env.currentPlayer (env.money env.currentPlayer - 50))
          a rng.tail.tail env.currentPlayer (env.money env.currentPlayer)
          (env.positions env.currentPlayer) 50 (-50) 50
          (by simp [setJailCounter, setInJail, setMoney])
        rw [h1, h2]
        rfl
      · exfalso
        apply hdice
        unfold step
        rw [if_neg (by simp [hdone]), if_pos hj]
        simp only [popRand]
        rw [if_neg hdb, if_neg (by simpa [setJailCounter] using hlim)]
        split_ifs <;> rfl
  · have hj' : env.inJail env.currentPlayer = false := by
      revert hj; cases env.inJail env.currentPlayer <;> simp
    have hstep : step env a rng =
        movementPhase env a rng env.currentPlayer (env.money env.currentPlayer)
          (env.positions env.currentPlayer) 0 0 0 := by
      unfold step
      rw [if_neg (by simp [hdone]), if_neg hj]
    rw [hstep]
    obtain ⟨h1, h2⟩ := movementPhase_goCredit env a rng env.currentPlayer
      (env.money env.currentPlayer) (env.positions env.currentPlayer) 0 0 0 hj'
    rw [h1, h2]

/-- Witness for C8: a fresh step rolling (1, 1) lands on square 2 without
wrapping, so no pass-GO credit is booked. -/
theorem pass_go_credit_iff_wrap_outside_jail_witness :
    envFresh.done = false ∧ (step envFresh 0 [0, 0]).diceRoll ≠ 0 ∧
      (step envFresh 0 [0, 0]).goCredit =
        (if (step envFresh 0 [0, 0]).landedOn < (step envFresh 0 [0, 0]).posBefore ∧
            (step envFresh 0 [0, 0]).posBefore ≠ jailPosition
         then envFresh.goReward else 0) :=
  ⟨rfl, by decide,
    pass_go_credit_iff_wrap_outside_jail envFresh 0 [0, 0] rfl (by decide)⟩

/-- Counterexample to C3 as stated: in the parallel per-episode simulator,
player 0 with $2 lands on the opponent-owned square 3 (base rent 4): the full
rent is debited (cash 2 → -2, a payment of 4 exceeding the pre-payment cash)
and the owner is credited nothing. -/
theorem kernel_rent_unclamped_no_transfer :
    kRentRun.1.money 0 = -2 ∧
      kEnvRent.money 0 = 2 ∧
      kEnvRent.money 0 - kRentRun.1.money 0 = 4 ∧
      ¬(kEnvRent.money 0 - kRentRun.1.money 0 ≤ kEnvRent.money 0) ∧
      kRentRun.1.money 1 = 300 ∧
      kEnvRent.money 1 = 300 ∧
      kEnvRent.owners 3 = 1 ∧
      (propertyAt 3).rent = 4 := by
  refine ⟨by decide, by decide, by decide, by decide, by decide, by decide,
    by decide, by decide⟩

end Monopoly
